import Mathlib

/-!
# Verification of the change-point analysis engine and dashboard components

This file gives a shallow embedding of the analytical core of the
Brent-oil change-point analysis repository and of its dashboard
components, and proves the specified properties about them.

The analytical engine (`BrentOilPriceAnalyzer`) is invoked from the
notebook `notbooks/price_analyzer.ipynb` but its implementation module
`src/price_analyzer.py` is not part of the source tree; those
components are modelled from the specification, as marked on each
definition.  The dashboard components (`FilterPanel`, `PriceChart`,
`ChangePointsAnalysis`) are embedded directly from their TypeScript
sources.
-/

set_option maxRecDepth 4000

/-! ## Generic list statistics -/

/-- Arithmetic mean of a list of rationals (0 for the empty list). -/
def listMean (xs : List ℚ) : ℚ :=
  if xs.length = 0 then 0 else xs.sum / xs.length

/-- Population variance of a list of rationals (0 for the empty list).
Volatility (a standard deviation in the original code) is represented
throughout by its square so as to stay inside ℚ; this is
order-faithful, since squaring is monotone on nonnegative reals. -/
def listVar (xs : List ℚ) : ℚ :=
  if xs.length = 0 then 0
  else (xs.map (fun x => (x - listMean xs) ^ 2)).sum / xs.length

/-- Simple returns of a price list: `(p_{i+1} - p_i) / p_i`. -/
def returnsOf (prices : List ℚ) : List ℚ :=
  (prices.zip prices.tail).map (fun p => (p.2 - p.1) / p.1)

/-- All contiguous windows of width `w` of a list. -/
def windowsOf (w : Nat) (xs : List ℚ) : List (List ℚ) :=
  (List.range (xs.length + 1 - w)).map (fun i => (xs.drop i).take w)

/-! ## FilterPanel (`src/unnamed/part_000`) -/

/-- The filter state held by the dashboard and passed to `FilterPanel`. -/
structure FilterState where
  startDate : String
  endDate : String
  eventType : String
  showEvents : Bool
  showChangePoints : Bool
deriving DecidableEq

/-- `clearFilters` from `FilterPanel`: calls `onFiltersChange` with a
fixed object, independent of the current filter state. -/
def clearFilters (_ : FilterState) : FilterState :=
  { startDate := ""
    endDate := ""
    eventType := ""
    showEvents := true
    showChangePoints := true }

/-- `hasActiveFilters` from `FilterPanel`:
`filters.startDate || filters.endDate || filters.eventType`, with
JavaScript truthiness of strings (nonempty = truthy). -/
def hasActiveFilters (f : FilterState) : Bool :=
  f.startDate ≠ "" || f.endDate ≠ "" || f.eventType ≠ ""

/-- The Clear button is rendered iff `hasActiveFilters` is truthy. -/
def clearButtonRendered (f : FilterState) : Bool :=
  hasActiveFilters f

/-- The active-filters summary is rendered iff `hasActiveFilters` is
truthy. -/
def activeFiltersSummaryRendered (f : FilterState) : Bool :=
  hasActiveFilters f

/-! ## PriceChart (`app/components/PriceChart.tsx`) -/

/-- `data[0]?.Price || 0` for a non-empty fetched list: the head
price, with JavaScript `|| 0` mapping a zero price to zero (identity
on numbers other than NaN). -/
def firstPrice (data : List ℚ) : ℚ :=
  data.headD 0

/-- `data[data.length - 1]?.Price || 0`. -/
def lastPrice (data : List ℚ) : ℚ :=
  data.getLastD 0

/-- `priceChange = lastPrice - firstPrice`. -/
def priceChange (data : List ℚ) : ℚ :=
  lastPrice data - firstPrice data

/-- `priceChangePercent = firstPrice > 0 ? (priceChange / firstPrice) * 100 : 0`. -/
def priceChangePercent (data : List ℚ) : ℚ :=
  if 0 < firstPrice data then priceChange data / firstPrice data * 100 else 0

/-! ## ChangePointsAnalysis (`app/components/ChangePointsAnalysis.tsx`) -/

/-- The `ChangePoint` record bound by the dashboard component. -/
structure DashChangePoint where
  date : String
  confidence : ℚ
  mean_before : ℚ
  mean_after : ℚ
  change_type : String
deriving DecidableEq

/-- The `Segment` record bound by the dashboard component. -/
structure DashSegment where
  start_date : String
  end_date : String
  mean_price : ℚ
  volatility : ℚ
  trend : String
deriving DecidableEq

/-- A JSON response field that is expected to be an array: either an
actual array or some non-array value. -/
inductive ArrayField (α : Type) where
  | arr (xs : List α)
  | notArr
deriving DecidableEq

/-- The body of `/api/analysis/change-points` as read by the component. -/
structure CPResponse where
  change_points : ArrayField DashChangePoint
  segments : ArrayField DashSegment

/-- Outcome of the axios request in `fetchChangePointsData`. -/
inductive FetchOutcome where
  | ok (r : CPResponse)
  | err

/-- Component state after `fetchChangePointsData` settles. -/
structure CPState where
  changePoints : List DashChangePoint
  segments : List DashSegment
  error : Option String

/-- The `Array.isArray` guard in `fetchChangePointsData`: an array
field is kept, any non-array value is replaced by `[]`. -/
def resolveArrayField {α : Type} : ArrayField α → List α
  | .arr xs => xs
  | .notArr => []

/-- `fetchChangePointsData`: on success both state arrays come from
the guarded response fields and the error is cleared; on a request
error both are reset to `[]` and the error message is set. -/
def applyFetch : FetchOutcome → CPState
  | .ok r =>
    { changePoints := resolveArrayField r.change_points
      segments := resolveArrayField r.segments
      error := none }
  | .err =>
    { changePoints := []
      segments := []
      error := some "Failed to load change points data" }

/-- Average confidence as computed in the summary block:
`changePoints.reduce((sum, p) => sum + p.confidence, 0) / changePoints.length`. -/
def avgConfidence (cps : List DashChangePoint) : ℚ :=
  (cps.map (fun p => p.confidence)).sum / cps.length

/-- What the component renders after loading finishes. -/
inductive CPView where
  | errorView
  | noChangePoints
  | analysis (avg : ℚ)
deriving DecidableEq

/-- The component's render branches: error state first, then the
empty-list guard (`!Array.isArray(changePoints) || changePoints.length === 0`)
showing "No change points detected", and only past that guard the
summary block evaluating the average-confidence division. -/
def renderCP (st : CPState) : CPView :=
  match st.error with
  | some _ => .errorView
  | none =>
    if st.changePoints.isEmpty then .noChangePoints
    else .analysis (avgConfidence st.changePoints)

/-! ## EventCorrelator

Modelled from the spec: the implementation
(`BrentOilPriceAnalyzer.correlate_events_with_changes` in
`src/price_analyzer.py`) is invoked from the notebook but is not in
the source tree.  Dates are modelled as integer day numbers. -/

/-- An observation of the series: {date, price}. -/
structure Obs where
  date : ℤ
  price : ℚ
deriving DecidableEq

/-- Modelled from the spec: per-event impact record produced by the
correlator.  `volatility_change_pct` is `none` when the pre-event
volatility is zero (the documented "undefined" sentinel). -/
structure EventImpact where
  event_date : ℤ
  pre_event_mean : ℚ
  post_event_mean : ℚ
  pre_volatility : ℚ
  post_volatility : ℚ
  price_change_pct : ℚ
  volatility_change_pct : Option ℚ
  impact_magnitude : ℚ
deriving DecidableEq

/-- Modelled from the spec: a change point matched (or not) to an event. -/
structure MatchResult where
  change_point : ℤ
  matched_event : Option ℤ
  distance_days : Option ℤ
deriving DecidableEq

/-- Modelled from the spec: aggregate statistics over all
`price_change_pct` values.  The distribution-based test p-values
(Shapiro-Wilk, t) are outside the rational model; the aggregates the
tests are computed from are kept. -/
structure StatTests where
  mean_impact : ℚ
  var_impact : ℚ
  impact_count : Nat
deriving DecidableEq

/-- Modelled from the spec: the correlator's structured result,
including the list of skipped event dates with a reason. -/
structure CorrelationReport where
  event_impact_analysis : List EventImpact
  change_point_event_matches : List MatchResult
  statistical_tests : StatTests
  skipped_events : List (ℤ × String)
deriving DecidableEq

/-- Pre-window of an event at date `e`: observations in `[e - w, e)`. -/
def preWindow (series : List Obs) (e w : ℤ) : List Obs :=
  series.filter (fun o => decide (e - w ≤ o.date) && decide (o.date < e))

/-- Post-window of an event at date `e`: observations in `[e, e + w]`. -/
def postWindow (series : List Obs) (e w : ℤ) : List Obs :=
  series.filter (fun o => decide (e ≤ o.date) && decide (o.date ≤ e + w))

/-- The correlator's percentage price change between window means:
`price_change_pct = (post_mean − pre_mean) / pre_mean * 100`. -/
def priceChangePct (preMean postMean : ℚ) : ℚ :=
  (postMean - preMean) / preMean * 100

/-- Modelled from the spec: the impact record of one event with
sufficient window data.  `price_change_pct = (post_mean − pre_mean) /
pre_mean * 100`; the volatility change is computed from the window
volatilities with the zero-pre-volatility sentinel. -/
def mkImpact (e : ℤ) (pre post : List Obs) : EventImpact :=
  let preMean := listMean (pre.map (fun o => o.price))
  let postMean := listMean (post.map (fun o => o.price))
  let preVol := listVar (returnsOf (pre.map (fun o => o.price)))
  let postVol := listVar (returnsOf (post.map (fun o => o.price)))
  let pct := priceChangePct preMean postMean
  { event_date := e
    pre_event_mean := preMean
    post_event_mean := postMean
    pre_volatility := preVol
    post_volatility := postVol
    price_change_pct := pct
    volatility_change_pct :=
      if preVol = 0 then none else some ((postVol - preVol) / preVol * 100)
    impact_magnitude := |pct| }

/-- One step of the correlation pass: an event with at least 2
observations in each window yields an impact, any other event is
skipped and recorded with reason "insufficient window data". -/
def correlateStep (series : List Obs) (w : ℤ)
    (acc : List EventImpact × List (ℤ × String)) (e : ℤ) :
    List EventImpact × List (ℤ × String) :=
  let pre := preWindow series e w
  let post := postWindow series e w
  if 2 ≤ pre.length ∧ 2 ≤ post.length then
    (acc.1 ++ [mkImpact e pre post], acc.2)
  else
    (acc.1, acc.2 ++ [(e, "insufficient window data")])

/-- Distance in days between a change point and an event. -/
def dayDistance (cp e : ℤ) : ℤ := |cp - e|

/-- Nearest event to `cp` among `events` within `tol` days, earliest
candidate winning ties. -/
def nearestEvent (cp tol : ℤ) (events : List ℤ) : Option ℤ :=
  match events.filter (fun e => decide (dayDistance cp e ≤ tol)) with
  | [] => none
  | e :: rest =>
    some (rest.foldl (fun best cand =>
      if dayDistance cp cand < dayDistance cp best then cand else best) e)

/-- Modelled from the spec: greedy chronological matching of change
points to events; a claimed event is removed from the pool. -/
def matchChangePoints (tol : ℤ) :
    List ℤ → List ℤ → List MatchResult
  | [], _ => []
  | cp :: cps, pool =>
    match nearestEvent cp tol pool with
    | none =>
      { change_point := cp, matched_event := none, distance_days := none } ::
        matchChangePoints tol cps pool
    | some e =>
      { change_point := cp, matched_event := some e,
        distance_days := some (dayDistance cp e) } ::
        matchChangePoints tol cps (pool.erase e)

/-- Modelled from the spec:
`correlate(series, events, change_points, window_days, tolerance_days)`.
Each event is either analysed into an `EventImpact` or skipped with a
reason; change points are matched greedily to events; aggregate
statistics are computed over all impacts. -/
def correlate (series : List Obs) (events : List ℤ) (changePoints : List ℤ)
    (w tol : ℤ) : CorrelationReport :=
  let passResult := events.foldl (correlateStep series w) ([], [])
  let impacts := passResult.1
  let pcts := impacts.map (fun i => i.price_change_pct)
  { event_impact_analysis := impacts
    change_point_event_matches := matchChangePoints tol changePoints events
    statistical_tests :=
      { mean_impact := listMean pcts
        var_impact := listVar pcts
        impact_count := pcts.length }
    skipped_events := passResult.2 }

/-! ## ChangePointDetector

Modelled from the spec: `BrentOilPriceAnalyzer.detect_change_points`
in `src/price_analyzer.py` is invoked from the notebook but is not in
the source tree.  The detector works on the price list; a breakpoint
is the index of the first observation of the segment it opens. -/

/-- Detection failure taxonomy from the spec. -/
inductive DetectError where
  | configurationError
  | insufficientDataError
deriving DecidableEq

/-- A detected change point: breakpoint index, adjacent-segment means,
confidence and change direction. -/
structure ChangePoint where
  index : Nat
  mean_before : ℚ
  mean_after : ℚ
  confidence : ℚ
  change_type : String
deriving DecidableEq

/-- Cost of a candidate segment: sum of squared deviations from its
own mean (the "l2" cost). -/
def segCost (xs : List ℚ) : ℚ :=
  (xs.map (fun x => (x - listMean xs) ^ 2)).sum

/-- Segments of `xs` cut at the (sorted, interior) breakpoint indices. -/
def segmentsAt (xs : List ℚ) (bkps : List Nat) : List (List ℚ) :=
  let bounds := 0 :: (bkps ++ [xs.length])
  (bounds.zip (bkps ++ [xs.length])).map
    (fun p => ((xs.drop p.1).take (p.2 - p.1)))

/-- Total within-segment cost of a candidate breakpoint list. -/
def totalCost (xs : List ℚ) (bkps : List Nat) : ℚ :=
  ((segmentsAt xs bkps).map segCost).sum

/-- All ascending selections of `k` elements of a list, in
lexicographic order (earliest selections first). -/
def combos : Nat → List Nat → List (List Nat)
  | 0, _ => [[]]
  | _ + 1, [] => []
  | k + 1, x :: rest => (combos k rest).map (fun c => x :: c) ++ combos (k + 1) rest

/-- Minimizer of `cost` over a candidate list; the earliest candidate
wins ties, matching the spec's earliest-breakpoint tie-break. -/
def pickMin (cost : List Nat → ℚ) : List (List Nat) → Option (List Nat)
  | [] => none
  | c :: rest =>
    some (rest.foldl (fun best cand =>
      if cost cand < cost best then cand else best) c)

/-- Change points for the chosen breakpoints: for each breakpoint,
`mean_before`/`mean_after` come from the adjacent segments (bounded by
the neighbouring breakpoint or series edge), confidence is the
normalized mean-shift magnitude clipped to [0,1], and the change type
is the sign of the mean shift. -/
def mkChangePoints (xs : List ℚ) (prev : Nat) : List Nat → List ChangePoint
  | [] => []
  | b :: rest =>
    let nxt := match rest with
      | [] => xs.length
      | b2 :: _ => b2
    let mb := listMean ((xs.drop prev).take (b - prev))
    let ma := listMean ((xs.drop b).take (nxt - b))
    let rawConf := |ma - mb| / (mb + ma)
    { index := b
      mean_before := mb
      mean_after := ma
      confidence := min (max rawConf 0) 1
      change_type := if mb < ma then "increase" else "decrease" } ::
      mkChangePoints xs b rest

/-- Modelled from the spec: exact-mode detection.  The caller-supplied
`n_bkps = k` must satisfy `0 < k < length/2` (equivalently
`2 * k < length`), else `ConfigurationError` before any computation;
otherwise the minimum-total-cost selection of `k` interior breakpoints
is returned, earliest breakpoints winning ties. -/
def detectExact (xs : List ℚ) (k : Nat) : Except DetectError (List ChangePoint) :=
  if 0 < k ∧ 2 * k < xs.length then
    match pickMin (totalCost xs) (combos k (List.range' 1 (xs.length - 1))) with
    | some bkps => .ok (mkChangePoints xs 0 bkps)
    | none => .error .insufficientDataError
  else
    .error .configurationError

/-- Configuration of the peak-heuristic mode. -/
structure PeaksConfig where
  shortWindow : Nat
  longWindow : Nat
  prominence : ℚ
  minSpacing : Nat

/-- Default peak-heuristic configuration: spacing matching the rolling
window length and a positive prominence threshold. -/
def defaultPeaksConfig : PeaksConfig :=
  { shortWindow := 5, longWindow := 30, prominence := 1, minSpacing := 30 }

/-- Rolling means of width `w`. -/
def rollingMeans (w : Nat) (xs : List ℚ) : List ℚ :=
  (windowsOf w xs).map listMean

/-- Rolling deviation signal: difference between the short and long
rolling means on their common indices. -/
def deviationSignal (cfg : PeaksConfig) (xs : List ℚ) : List ℚ :=
  List.zipWith (fun a b => a - b)
    (rollingMeans cfg.shortWindow xs) (rollingMeans cfg.longWindow xs)

/-- Indices that are local maxima of `|signal|` exceeding the
prominence threshold. -/
def peakCandidates (cfg : PeaksConfig) (sig : List ℚ) : List Nat :=
  (List.range sig.length).filter (fun i =>
    decide (0 < i) && decide (i + 1 < sig.length) &&
    decide (cfg.prominence < |sig.getD i 0|) &&
    decide (|sig.getD (i - 1) 0| < |sig.getD i 0|) &&
    decide (|sig.getD (i + 1) 0| ≤ |sig.getD i 0|))

/-- Greedy enforcement of the minimum spacing between kept peaks. -/
def spaceOut (spacing : Nat) : List Nat → Option Nat → List Nat
  | [], _ => []
  | i :: rest, none => i :: spaceOut spacing rest (some i)
  | i :: rest, some lastKept =>
    if lastKept + spacing ≤ i then i :: spaceOut spacing rest (some i)
    else spaceOut spacing rest (some lastKept)

/-- Modelled from the spec: peaks-mode detection.  Qualifying peaks of
the rolling deviation signal become change points; an empty list is a
valid outcome returned normally. -/
def detectPeaks (xs : List ℚ) (cfg : PeaksConfig) :
    Except DetectError (List ChangePoint) :=
  if xs.length < cfg.longWindow + 1 then
    .error .insufficientDataError
  else
    let sig := deviationSignal cfg xs
    let peaks := spaceOut cfg.minSpacing (peakCandidates cfg sig) none
    .ok (mkChangePoints xs 0 (peaks.map (fun i => i + cfg.longWindow)))

/-! ## SegmentSummarizer

Modelled from the spec: `summarize(series, change_points)` builds
boundaries `[series.start_date] + change_point_dates + [series.end_date]`,
deduplicated and sorted, and emits one segment per consecutive
boundary pair. -/

/-- A summarized segment (the shape bound by the dashboard's
`ChangePointsAnalysis.tsx` `Segment` interface). -/
structure Segment where
  start_date : ℤ
  end_date : ℤ
  mean_price : ℚ
  volatility : ℚ
  trend : String
deriving DecidableEq

/-- Insert a date into an ascending duplicate-free list, keeping it
ascending and duplicate-free. -/
def insertBoundary (x : ℤ) : List ℤ → List ℤ
  | [] => [x]
  | y :: ys =>
    if x < y then x :: y :: ys
    else if x = y then y :: ys
    else y :: insertBoundary x ys

/-- Sort a list of dates ascending and drop duplicates. -/
def sortDedup (l : List ℤ) : List ℤ :=
  l.foldr insertBoundary []

/-- Slope threshold below which a segment's trend is labelled flat. -/
def trendEps : ℚ := 1 / 100

/-- Least-squares slope of prices against a zero-based index. -/
def linSlope (xs : List ℚ) : ℚ :=
  let n := xs.length
  let idx := (List.range n).map (fun i => (i : ℚ))
  let mx := listMean idx
  let my := listMean xs
  let num := ((idx.zip xs).map (fun p => (p.1 - mx) * (p.2 - my))).sum
  let den := (idx.map (fun t => (t - mx) ^ 2)).sum
  if den = 0 then 0 else num / den

/-- Build one segment from a boundary pair: mean price, volatility of
daily returns, and the ε-thresholded trend label. -/
def mkSegment (series : List Obs) (a b : ℤ) : Segment :=
  let obs := series.filter (fun o => decide (a ≤ o.date) && decide (o.date ≤ b))
  let prices := obs.map (fun o => o.price)
  { start_date := a
    end_date := b
    mean_price := listMean prices
    volatility := listVar (returnsOf prices)
    trend :=
      if trendEps < linSlope prices then "increasing"
      else if linSlope prices < -trendEps then "decreasing"
      else "flat" }

/-- Modelled from the spec: `summarize(series, change_points)`. -/
def summarize (series : List Obs) (cpDates : List ℤ) : List Segment :=
  match series with
  | [] => []
  | o :: rest =>
    let sd := o.date
    let ed := (rest.getLastD o).date
    let bounds := sortDedup (sd :: (cpDates ++ [ed]))
    (bounds.dropLast.zip bounds.tail).map (fun p => mkSegment series p.1 p.2)

/-! ## TimeSeriesProfiler

Modelled from the spec: `BrentOilPriceAnalyzer.analyze_time_series_properties`
in `src/price_analyzer.py` is invoked from the notebook but is not in
the source tree.  The augmented Dickey-Fuller regression itself is an
external statistical routine; its outputs (statistic, p-value,
critical values) enter the model as inputs, and the profiler's own
decision rule on them is modelled. -/

/-- Basic descriptive statistics reported by the profiler. -/
structure BasicStats where
  mean_price : ℚ
  std_price : ℚ
  min_price : ℚ
  max_price : ℚ
  total_observations : Nat
  date_range_years : ℚ
deriving DecidableEq

/-- Stationarity block reported by the profiler. -/
structure Stationarity where
  adf_statistic : ℚ
  p_value : ℚ
  is_stationary : Bool
deriving DecidableEq

/-- Modelled from the spec: the profiler's stationarity decision rule,
`is_stationary` true iff the unit-root test p-value is below 0.05. -/
def mkStationarity (stat pvalue : ℚ) : Stationarity :=
  { adf_statistic := stat
    p_value := pvalue
    is_stationary := decide (pvalue < 5 / 100) }

/-- The stationarity block of the recorded historical run in
`notbooks/price_analyzer.ipynb` (9011 observations). -/
def recordedStationarity : Stationarity :=
  mkStationarity (-19938560113924675 / 10 ^ 16) (28927350489340287 / 10 ^ 17)

/-- The basic statistics of the recorded historical run in
`notbooks/price_analyzer.ipynb`. -/
def recordedBasicStats : BasicStats :=
  { mean_price := 4842078237709467 / 10 ^ 14
    std_price := 3286010995167221 / 10 ^ 14
    min_price := 91 / 10
    max_price := 14395 / 100
    total_observations := 9011
    date_range_years := 35488021902806295 / 10 ^ 15 }

/-! ## Volatility clustering (median split)

Modelled from the spec: classify each period's rolling volatility as
"high" or "low" relative to the median rolling volatility and report
both counts and their ratio.  Volatility is represented by the rolling
variance of returns (the square of the rolling standard deviation),
which induces the same ordering and hence the same classification. -/

/-- Median of a list of rationals: middle element of the sorted list,
or the average of the two middle elements for an even count. -/
def medianQ (l : List ℚ) : ℚ :=
  let s := List.insertionSort (fun a b => a ≤ b) l
  let n := l.length
  if n % 2 = 1 then s.getD (n / 2) 0
  else (s.getD (n / 2 - 1) 0 + s.getD (n / 2) 0) / 2

/-- Rolling variances of returns over windows of width `w`. -/
def rollingVols (w : Nat) (prices : List ℚ) : List ℚ :=
  (windowsOf w (returnsOf prices)).map listVar

/-- Count of periods whose rolling volatility is classified high
(strictly above the median). -/
def highVolCount (vols : List ℚ) : Nat :=
  vols.countP (fun v => decide (medianQ vols < v))

/-- Count of periods whose rolling volatility is classified low
(at or below the median). -/
def lowVolCount (vols : List ℚ) : Nat :=
  vols.countP (fun v => decide (v ≤ medianQ vols))

/-- Reported ratio of high- to low-volatility period counts. -/
def volRatio (vols : List ℚ) : ℚ :=
  if lowVolCount vols = 0 then 0
  else (highVolCount vols : ℚ) / (lowVolCount vols : ℚ)

/-- The volatility-clustering pipeline on a price series: rolling
volatilities of the returns, then the median-split counts. -/
def volClusterCounts (w : Nat) (prices : List ℚ) : Nat × Nat :=
  (highVolCount (rollingVols w prices), lowVolCount (rollingVols w prices))

/-! ## Theorems: dashboard components -/

/-- C10: for every current filter state, `clearFilters` passes to
`onFiltersChange` the fixed state with empty `startDate`, `endDate`
and `eventType` and both toggles true; under that state
`hasActiveFilters` is false, so neither the Clear button nor the
active-filters summary is rendered. -/
theorem clearFilters_resets_and_hides_controls (f : FilterState) :
    clearFilters f =
      { startDate := ""
        endDate := ""
        eventType := ""
        showEvents := true
        showChangePoints := true } ∧
    hasActiveFilters (clearFilters f) = false ∧
    clearButtonRendered (clearFilters f) = false ∧
    activeFiltersSummaryRendered (clearFilters f) = false :=
  ⟨rfl, rfl, rfl, rfl⟩

/-- C8: for every non-empty fetched price list, the displayed period
percentage change equals `(last − first) / first * 100` when the first
price is strictly positive, and is exactly 0 when the first price is
zero or negative, so the computation never divides by zero. -/
theorem priceChart_percent_change_guarded (data : List ℚ) (h : data ≠ []) :
    (0 < firstPrice data →
      priceChangePercent data =
        (lastPrice data - firstPrice data) / firstPrice data * 100) ∧
    (firstPrice data ≤ 0 → priceChangePercent data = 0) := by
  constructor
  · intro hpos
    simp [priceChangePercent, priceChange, hpos]
  · intro hle
    simp [priceChangePercent, not_lt.mpr hle]

/-- Witness for C8 on the concrete list `[2, 3]`. -/
theorem priceChart_percent_change_guarded_witness :
    ([2, 3] : List ℚ) ≠ [] ∧ 0 < firstPrice [2, 3] ∧
    priceChangePercent [2, 3] =
      (lastPrice [2, 3] - firstPrice [2, 3]) / firstPrice [2, 3] * 100 :=
  ⟨by decide, by decide,
    (priceChart_percent_change_guarded [2, 3] (by decide)).1 (by decide)⟩

/-- C9: after every fetch outcome the `changePoints` and `segments`
states are arrays — a non-array response field is replaced by `[]` and
a request error resets both to `[]`; the average-confidence division
is evaluated only when the change-point list is non-empty, and an
empty list renders the "No change points detected" view. -/
theorem changePoints_state_always_arrays_and_guarded_render :
    (∀ r : CPResponse,
      applyFetch (.ok r) =
        { changePoints := resolveArrayField r.change_points
          segments := resolveArrayField r.segments
          error := none }) ∧
    resolveArrayField (ArrayField.notArr : ArrayField DashChangePoint) = [] ∧
    resolveArrayField (ArrayField.notArr : ArrayField DashSegment) = [] ∧
    (applyFetch .err).changePoints = [] ∧
    (applyFetch .err).segments = [] ∧
    (∀ st q, renderCP st = .analysis q →
      st.changePoints ≠ [] ∧ q = avgConfidence st.changePoints) ∧
    (∀ st, st.error = none → st.changePoints = [] →
      renderCP st = .noChangePoints) := by
  refine ⟨fun r => rfl, rfl, rfl, rfl, rfl, ?_, ?_⟩
  · intro st q hq
    unfold renderCP at hq
    cases herr : st.error with
    | some m => rw [herr] at hq; exact absurd hq (by simp)
    | none =>
      rw [herr] at hq
      by_cases hemp : st.changePoints.isEmpty
      · rw [if_pos hemp] at hq; exact absurd hq (by simp)
      · rw [if_neg hemp] at hq
        refine ⟨by simpa [List.isEmpty_iff] using hemp, ?_⟩
        cases hq
        rfl
  · intro st herr hemp
    unfold renderCP
    rw [herr, if_pos (by simp [hemp])]

/-- Witness for C9 on a concrete one-point state. -/
theorem changePoints_state_always_arrays_and_guarded_render_witness :
    ([⟨"2020-03-11", 1/2, 1, 2, "increase"⟩] : List DashChangePoint) ≠ [] ∧
    (1/2 : ℚ) = avgConfidence [⟨"2020-03-11", 1/2, 1, 2, "increase"⟩] :=
  changePoints_state_always_arrays_and_guarded_render.2.2.2.2.2.1
    ⟨[⟨"2020-03-11", 1/2, 1, 2, "increase"⟩], [], none⟩ (1/2) (by
      have havg : avgConfidence [⟨"2020-03-11", 1/2, 1, 2, "increase"⟩] = 1/2 := by
        norm_num [avgConfidence]
      rw [show renderCP ⟨[⟨"2020-03-11", 1/2, 1, 2, "increase"⟩], [], none⟩ =
            CPView.analysis (avgConfidence [⟨"2020-03-11", 1/2, 1, 2, "increase"⟩])
          from rfl, havg])

/-! ## Theorems: profiler -/

/-- C5: `profile` reports `is_stationary = true` iff the unit-root
test p-value is below 0.05; the recorded historical 9011-observation
run reports mean price ≈ 48.42, price range [9.10, 143.95], span
≈ 35.5 years and an augmented Dickey-Fuller p-value ≈ 0.289, hence
`is_stationary = false`. -/
theorem profiler_stationarity_rule_and_recorded_run :
    (∀ s p : ℚ, (mkStationarity s p).is_stationary = decide (p < 5 / 100)) ∧
    recordedStationarity.is_stationary = false ∧
    |recordedBasicStats.mean_price - 4842 / 100| < 1 / 100 ∧
    recordedBasicStats.min_price = 91 / 10 ∧
    recordedBasicStats.max_price = 14395 / 100 ∧
    |recordedBasicStats.date_range_years - 355 / 10| < 5 / 100 ∧
    |recordedStationarity.p_value - 289 / 1000| < 1 / 1000 ∧
    recordedBasicStats.total_observations = 9011 := by
  refine ⟨fun s p => rfl, ?_, ?_, rfl, rfl, ?_, ?_, rfl⟩
  · norm_num [recordedStationarity, mkStationarity]
  · simp only [recordedBasicStats]
    rw [abs_lt]
    constructor <;> norm_num
  · simp only [recordedBasicStats]
    rw [abs_lt]
    constructor <;> norm_num
  · simp only [recordedStationarity, mkStationarity]
    rw [abs_lt]
    constructor <;> norm_num

/-- Decidable equality of detection results, used to evaluate the
detector on concrete inputs. -/
instance instDecEqExceptDetect {e a : Type} [DecidableEq e] [DecidableEq a] :
    DecidableEq (Except e a) := fun x y =>
  match x, y with
  | .ok u, .ok v =>
    if h : u = v then isTrue (by rw [h]) else isFalse (by intro hc; cases hc; exact h rfl)
  | .error u, .error v =>
    if h : u = v then isTrue (by rw [h]) else isFalse (by intro hc; cases hc; exact h rfl)
  | .ok _, .error _ => isFalse (by intro hc; cases hc)
  | .error _, .ok _ => isFalse (by intro hc; cases hc)

/-! ## Theorems: peaks-mode detection -/

/-- C6: peaks mode can return an empty change-point list as a normal
(`ok`) result — here on a 31-observation constant series under the
default prominence and spacing thresholds — matching the recorded
historical run in the notebook, where peaks mode returned 0 change
points on the full series. -/
theorem detectPeaks_can_return_empty_normally :
    detectPeaks (List.replicate 31 50) defaultPeaksConfig = .ok [] := by
  decide

/-! ## Theorems: event correlation -/

/-- Impacts already accumulated survive the rest of the correlation pass. -/
theorem correlateStep_impacts_mono (series : List Obs) (w : ℤ) :
    ∀ (evs : List ℤ) (acc : List EventImpact × List (ℤ × String)) (i : EventImpact),
      i ∈ acc.1 → i ∈ (evs.foldl (correlateStep series w) acc).1 := by
  intro evs
  induction evs with
  | nil => intro acc i hi; exact hi
  | cons e rest ih =>
    intro acc i hi
    refine ih (correlateStep series w acc e) i ?_
    unfold correlateStep
    by_cases hc : 2 ≤ (preWindow series e w).length ∧ 2 ≤ (postWindow series e w).length
    · rw [if_pos hc]; exact List.mem_append_left _ hi
    · rw [if_neg hc]; exact hi

/-- Skipped records already accumulated survive the rest of the pass. -/
theorem correlateStep_skipped_mono (series : List Obs) (w : ℤ) :
    ∀ (evs : List ℤ) (acc : List EventImpact × List (ℤ × String)) (s : ℤ × String),
      s ∈ acc.2 → s ∈ (evs.foldl (correlateStep series w) acc).2 := by
  intro evs
  induction evs with
  | nil => intro acc s hs; exact hs
  | cons e rest ih =>
    intro acc s hs
    refine ih (correlateStep series w acc e) s ?_
    unfold correlateStep
    by_cases hc : 2 ≤ (preWindow series e w).length ∧ 2 ≤ (postWindow series e w).length
    · rw [if_pos hc]; exact hs
    · rw [if_neg hc]; exact List.mem_append_left _ hs

/-- Every event with sufficient windows contributes its impact record. -/
theorem correlate_pass_adds_impact (series : List Obs) (w : ℤ) :
    ∀ (evs : List ℤ) (acc : List EventImpact × List (ℤ × String)) (e : ℤ),
      e ∈ evs →
      2 ≤ (preWindow series e w).length → 2 ≤ (postWindow series e w).length →
      mkImpact e (preWindow series e w) (postWindow series e w) ∈
        (evs.foldl (correlateStep series w) acc).1 := by
  intro evs
  induction evs with
  | nil => intro acc e he; cases he
  | cons a rest ih =>
    intro acc e he hpre hpost
    rcases List.mem_cons.mp he with rfl | hmem
    · refine correlateStep_impacts_mono series w rest (correlateStep series w acc e) _ ?_
      unfold correlateStep
      rw [if_pos ⟨hpre, hpost⟩]
      exact List.mem_append_right _ (List.mem_singleton_self _)
    · exact ih (correlateStep series w acc a) e hmem hpre hpost

/-- Every event with an insufficient window is recorded as skipped. -/
theorem correlate_pass_adds_skip (series : List Obs) (w : ℤ) :
    ∀ (evs : List ℤ) (acc : List EventImpact × List (ℤ × String)) (e : ℤ),
      e ∈ evs →
      ¬(2 ≤ (preWindow series e w).length ∧ 2 ≤ (postWindow series e w).length) →
      (e, "insufficient window data") ∈ (evs.foldl (correlateStep series w) acc).2 := by
  intro evs
  induction evs with
  | nil => intro acc e he; cases he
  | cons a rest ih =>
    intro acc e he hc
    rcases List.mem_cons.mp he with rfl | hmem
    · refine correlateStep_skipped_mono series w rest (correlateStep series w acc e) _ ?_
      unfold correlateStep
      rw [if_neg hc]
      exact List.mem_append_right _ (List.mem_singleton_self _)
    · exact ih (correlateStep series w acc a) e hmem hc

/-- Each event of the pass lands in exactly one of the two output
lists: the lengths add up. -/
theorem correlate_pass_length (series : List Obs) (w : ℤ) :
    ∀ (evs : List ℤ) (acc : List EventImpact × List (ℤ × String)),
      (evs.foldl (correlateStep series w) acc).1.length +
        (evs.foldl (correlateStep series w) acc).2.length =
      acc.1.length + acc.2.length + evs.length := by
  intro evs
  induction evs with
  | nil => intro acc; simp
  | cons e rest ih =>
    intro acc
    have := ih (correlateStep series w acc e)
    rw [List.foldl_cons, this]
    unfold correlateStep
    by_cases hc : 2 ≤ (preWindow series e w).length ∧ 2 ≤ (postWindow series e w).length
    · rw [if_pos hc]; simp; omega
    · rw [if_neg hc]; simp; omega

/-- C1: for every event whose pre- and post-windows each contain at
least 2 observations, the correlator produces an impact whose
`price_change_pct` equals `(post_mean − pre_mean) / pre_mean * 100`;
at the means recorded for the 1990-08-02 event (17.375 and 27.496)
the formula gives ≈ +58.25, and at those of the 2020-03-11 event
(53.026 and 24.478) it gives ≈ −53.84. -/
theorem correlator_price_change_pct :
    (∀ (series : List Obs) (events cps : List ℤ) (w tol : ℤ), ∀ e ∈ events,
      2 ≤ (preWindow series e w).length → 2 ≤ (postWindow series e w).length →
      ∃ imp ∈ (correlate series events cps w tol).event_impact_analysis,
        imp.event_date = e ∧
        imp.pre_event_mean = listMean ((preWindow series e w).map (fun o => o.price)) ∧
        imp.post_event_mean = listMean ((postWindow series e w).map (fun o => o.price)) ∧
        imp.price_change_pct =
          (imp.post_event_mean - imp.pre_event_mean) / imp.pre_event_mean * 100) ∧
    |priceChangePct (17375 / 1000) (27496 / 1000) - 5825 / 100| < 1 / 100 ∧
    |priceChangePct (53026 / 1000) (24478 / 1000) + 5384 / 100| < 1 / 100 := by
  refine ⟨?_, ?_, ?_⟩
  · intro series events cps w tol e he hpre hpost
    refine ⟨mkImpact e (preWindow series e w) (postWindow series e w), ?_, rfl, rfl, rfl, rfl⟩
    exact correlate_pass_adds_impact series w events ([], []) e he hpre hpost
  · simp only [priceChangePct]
    rw [abs_lt]
    constructor <;> norm_num
  · simp only [priceChangePct]
    rw [abs_lt]
    constructor <;> norm_num

/-- Witness for C1 on a concrete 4-observation series with one event. -/
theorem correlator_price_change_pct_witness :
    (2 : ℤ) ∈ ([2] : List ℤ) ∧
    2 ≤ (preWindow [⟨0, 10⟩, ⟨1, 12⟩, ⟨2, 20⟩, ⟨3, 24⟩] 2 5).length ∧
    2 ≤ (postWindow [⟨0, 10⟩, ⟨1, 12⟩, ⟨2, 20⟩, ⟨3, 24⟩] 2 5).length ∧
    ∃ imp ∈ (correlate [⟨0, 10⟩, ⟨1, 12⟩, ⟨2, 20⟩, ⟨3, 24⟩] [2] [] 5 5).event_impact_analysis,
      imp.event_date = 2 ∧
      imp.pre_event_mean =
        listMean ((preWindow [⟨0, 10⟩, ⟨1, 12⟩, ⟨2, 20⟩, ⟨3, 24⟩] 2 5).map (fun o => o.price)) ∧
      imp.post_event_mean =
        listMean ((postWindow [⟨0, 10⟩, ⟨1, 12⟩, ⟨2, 20⟩, ⟨3, 24⟩] 2 5).map (fun o => o.price)) ∧
      imp.price_change_pct =
        (imp.post_event_mean - imp.pre_event_mean) / imp.pre_event_mean * 100 :=
  ⟨by decide, by decide, by decide,
    correlator_price_change_pct.1 [⟨0, 10⟩, ⟨1, 12⟩, ⟨2, 20⟩, ⟨3, 24⟩] [2] [] 5 5 2
      (by decide) (by decide) (by decide)⟩

/-- C3: every event with an insufficient pre- or post-window is
skipped and recorded in the report's `skipped_events` list with reason
"insufficient window data", and the pass still completes over the
remaining events: the impact and skipped lists together account for
every event. -/
theorem correlator_records_skips_and_never_aborts :
    ∀ (series : List Obs) (events cps : List ℤ) (w tol : ℤ),
      ((correlate series events cps w tol).event_impact_analysis.length +
        (correlate series events cps w tol).skipped_events.length = events.length) ∧
      (∀ e ∈ events,
        ((preWindow series e w).length < 2 ∨ (postWindow series e w).length < 2) →
        (e, "insufficient window data") ∈
          (correlate series events cps w tol).skipped_events) := by
  intro series events cps w tol
  constructor
  · have h := correlate_pass_length series w events ([], [])
    simpa using h
  · intro e he hc
    refine correlate_pass_adds_skip series w events ([], []) e he ?_
    omega

/-- Witness for C3: a one-observation series skips its event and the
counts still account for it. -/
theorem correlator_records_skips_and_never_aborts_witness :
    (2 : ℤ) ∈ ([2] : List ℤ) ∧
    (preWindow [⟨0, 10⟩] 2 5).length < 2 ∧
    ((2 : ℤ), "insufficient window data") ∈
      (correlate [⟨0, 10⟩] [2] [] 5 5).skipped_events ∧
    (correlate [⟨0, 10⟩] [2] [] 5 5).event_impact_analysis.length +
      (correlate [⟨0, 10⟩] [2] [] 5 5).skipped_events.length = 1 :=
  ⟨by decide, by decide,
    (correlator_records_skips_and_never_aborts [⟨0, 10⟩] [2] [] 5 5).2 2
      (by decide) (by decide),
    (correlator_records_skips_and_never_aborts [⟨0, 10⟩] [2] [] 5 5).1⟩

/-! ## Theorems: exact-mode detection -/

/-- Every selection produced by `combos k` has exactly `k` elements. -/
theorem combos_length :
    ∀ (l : List Nat) (k : Nat), ∀ c ∈ combos k l, c.length = k := by
  intro l
  induction l with
  | nil =>
    intro k c hc
    cases k with
    | zero => simp [combos] at hc; simp [hc]
    | succ k => simp [combos] at hc
  | cons x rest ih =>
    intro k c hc
    cases k with
    | zero => simp [combos] at hc; simp [hc]
    | succ k =>
      simp only [combos, List.mem_append, List.mem_map] at hc
      rcases hc with ⟨a, ha, rfl⟩ | hc
      · simp [ih k a ha]
      · exact ih (k + 1) c hc

/-- `combos k l` is nonempty whenever `l` has at least `k` elements. -/
theorem combos_ne_nil :
    ∀ (l : List Nat) (k : Nat), k ≤ l.length → combos k l ≠ [] := by
  intro l
  induction l with
  | nil =>
    intro k hk
    have hz : k = 0 := Nat.le_zero.mp hk
    subst hz
    simp [combos]
  | cons x rest ih =>
    intro k hk
    cases k with
    | zero => simp [combos]
    | succ k =>
      have hrest : k ≤ rest.length := by simpa using hk
      have hne := ih k hrest
      intro hcontra
      rw [show combos (k + 1) (x :: rest) =
            (combos k rest).map (fun c => x :: c) ++ combos (k + 1) rest from rfl] at hcontra
      rcases List.append_eq_nil.mp hcontra with ⟨hmap, _⟩
      exact hne (List.map_eq_nil_iff.mp hmap)

/-- The fold inside `pickMin` always returns one of its inputs. -/
theorem pickMin_fold_mem (cost : List Nat → ℚ) :
    ∀ (rest : List (List Nat)) (a : List Nat),
      rest.foldl (fun best cand => if cost cand < cost best then cand else best) a ∈
        a :: rest := by
  intro rest
  induction rest with
  | nil => intro a; simp
  | cons b bs ih =>
    intro a
    rw [List.foldl_cons]
    show bs.foldl (fun best cand => if cost cand < cost best then cand else best)
        (if cost b < cost a then b else a) ∈ a :: b :: bs
    by_cases hlt : cost b < cost a
    · rw [if_pos hlt]
      exact List.mem_cons_of_mem _ (ih b)
    · rw [if_neg hlt]
      rcases List.mem_cons.mp (ih a) with heq | hmem
      · rw [heq]
        exact List.mem_cons_self _ _
      · exact List.mem_cons_of_mem _ (List.mem_cons_of_mem _ hmem)

/-- A successful `pickMin` returns a member of its candidate list. -/
theorem pickMin_mem (cost : List Nat → ℚ) (cands : List (List Nat))
    (res : List Nat) (h : pickMin cost cands = some res) : res ∈ cands := by
  cases cands with
  | nil => simp [pickMin] at h
  | cons c rest =>
    simp only [pickMin, Option.some.injEq] at h
    rw [← h]
    exact pickMin_fold_mem cost rest c

/-- `mkChangePoints` yields one change point per breakpoint. -/
theorem mkChangePoints_length (xs : List ℚ) :
    ∀ (bkps : List Nat) (prev : Nat),
      (mkChangePoints xs prev bkps).length = bkps.length := by
  intro bkps
  induction bkps with
  | nil => intro prev; rfl
  | cons b rest ih => intro prev; simp [mkChangePoints, ih b]

/-- C2: in exact mode, for every series and every caller-supplied
`n_bkps = k` with `0 < k < length/2` (equivalently `length > 2k`),
`detect` returns exactly `k` change points; for `n_bkps` outside that
range it fails with `ConfigurationError` before any computation. -/
theorem detectExact_count_and_validation (xs : List ℚ) (k : Nat) :
    (0 < k ∧ 2 * k < xs.length →
      ∃ cps, detectExact xs k = .ok cps ∧ cps.length = k) ∧
    (¬(0 < k ∧ 2 * k < xs.length) →
      detectExact xs k = .error .configurationError) := by
  constructor
  · intro h
    have hk : k ≤ (List.range' 1 (xs.length - 1)).length := by
      rw [List.length_range']
      omega
    have hne := combos_ne_nil (List.range' 1 (xs.length - 1)) k hk
    obtain ⟨c, rest, hcands⟩ :
        ∃ c rest, combos k (List.range' 1 (xs.length - 1)) = c :: rest := by
      cases hcs : combos k (List.range' 1 (xs.length - 1)) with
      | nil => exact absurd hcs hne
      | cons c rest => exact ⟨c, rest, rfl⟩
    set best := rest.foldl
      (fun b cand => if totalCost xs cand < totalCost xs b then cand else b) c with hbest
    have hpick : pickMin (totalCost xs) (combos k (List.range' 1 (xs.length - 1))) =
        some best := by
      rw [hcands]; rfl
    have hmem : best ∈ combos k (List.range' 1 (xs.length - 1)) :=
      pickMin_mem (totalCost xs) _ best hpick
    have hlen : best.length = k := combos_length _ k best hmem
    refine ⟨mkChangePoints xs 0 best, ?_, ?_⟩
    · unfold detectExact
      rw [if_pos h, hpick]
    · rw [mkChangePoints_length xs best 0]
      exact hlen
  · intro h
    unfold detectExact
    rw [if_neg h]

/-- Witness for C2 on the series `[1, 2, 10]` with `k = 1` (valid) and
`k = 0` (rejected). -/
theorem detectExact_count_and_validation_witness :
    (0 < 1 ∧ 2 * 1 < ([1, 2, 10] : List ℚ).length) ∧
    (∃ cps, detectExact [1, 2, 10] 1 = .ok cps ∧ cps.length = 1) ∧
    ¬(0 < 0 ∧ 2 * 0 < ([1, 2, 10] : List ℚ).length) ∧
    detectExact [1, 2, 10] 0 = .error .configurationError :=
  ⟨by decide,
    (detectExact_count_and_validation [1, 2, 10] 1).1 (by decide),
    by decide,
    (detectExact_count_and_validation [1, 2, 10] 0).2 (by decide)⟩

/-! ## Theorems: segment summarization -/

/-- Sorting and deduplicating an already strictly ascending boundary
list leaves it unchanged. -/
theorem sortDedup_of_chain :
    ∀ (l : List ℤ), l.Chain' (· < ·) → sortDedup l = l := by
  intro l
  induction l with
  | nil => intro _; rfl
  | cons a rest ih =>
    intro h
    show insertBoundary a (sortDedup rest) = a :: rest
    rw [ih h.tail]
    cases rest with
    | nil => rfl
    | cons b bs =>
      have hab : a < b := (List.chain'_cons.mp h).1
      simp [insertBoundary, hab]

/-- Telescoping sum over consecutive boundary pairs. -/
theorem boundary_pairs_telescope :
    ∀ (l : List ℤ) (x : ℤ),
      ((((x :: l).dropLast.zip l).map (fun p => p.2 - p.1)).sum) = l.getLastD x - x := by
  intro l
  induction l with
  | nil => intro x; simp
  | cons y ys ih =>
    intro x
    rw [List.getLastD_cons]
    cases ys with
    | nil => simp
    | cons z zs =>
      have hstep : ((x :: y :: z :: zs).dropLast.zip (y :: z :: zs)) =
          (x, y) :: ((y :: z :: zs).dropLast.zip (z :: zs)) := by
        simp [List.dropLast]
      rw [hstep, List.map_cons, List.sum_cons, ih y]
      ring

/-- C4: for every non-empty series and strictly interior, strictly
ascending change-point dates, the segments returned by `summarize`
exactly tile the series: segment start dates are the series start
followed by the change points, segment end dates are the change
points followed by the series end (so consecutive segments share
boundaries with no gaps or overlaps and internal boundaries equal the
change-point dates), and the segment spans sum to the series span. -/
theorem summarize_tiles_series (o : Obs) (rest : List Obs) (cpDates : List ℤ)
    (hchain : (o.date :: (cpDates ++ [(rest.getLastD o).date])).Chain' (· < ·)) :
    (summarize (o :: rest) cpDates).map Segment.start_date =
      o.date :: cpDates ∧
    (summarize (o :: rest) cpDates).map Segment.end_date =
      cpDates ++ [(rest.getLastD o).date] ∧
    ((summarize (o :: rest) cpDates).map Segment.start_date).tail =
      ((summarize (o :: rest) cpDates).map Segment.end_date).dropLast ∧
    ((summarize (o :: rest) cpDates).map
        (fun s => s.end_date - s.start_date)).sum =
      (rest.getLastD o).date - o.date := by
  have hbounds : sortDedup (o.date :: (cpDates ++ [(rest.getLastD o).date])) =
      o.date :: (cpDates ++ [(rest.getLastD o).date]) :=
    sortDedup_of_chain _ hchain
  have hsumm : summarize (o :: rest) cpDates =
      (((o.date :: (cpDates ++ [(rest.getLastD o).date])).dropLast).zip
        (cpDates ++ [(rest.getLastD o).date])).map
        (fun p => mkSegment (o :: rest) p.1 p.2) := by
    show ((sortDedup (o.date :: (cpDates ++ [(rest.getLastD o).date]))).dropLast.zip
        (sortDedup (o.date :: (cpDates ++ [(rest.getLastD o).date]))).tail).map
        (fun p => mkSegment (o :: rest) p.1 p.2) = _
    rw [hbounds]
    rfl
  have hlen : ((o.date :: (cpDates ++ [(rest.getLastD o).date])).dropLast).length =
      (cpDates ++ [(rest.getLastD o).date]).length := by
    simp
  have hdrop : (o.date :: (cpDates ++ [(rest.getLastD o).date])).dropLast =
      o.date :: cpDates := by
    rw [show o.date :: (cpDates ++ [(rest.getLastD o).date]) =
          (o.date :: cpDates) ++ [(rest.getLastD o).date] by simp]
    exact List.dropLast_concat
  have hstart : (summarize (o :: rest) cpDates).map Segment.start_date =
      o.date :: cpDates := by
    rw [hsumm, List.map_map]
    have : (Segment.start_date ∘ fun p : ℤ × ℤ => mkSegment (o :: rest) p.1 p.2) =
        Prod.fst := rfl
    rw [this, List.map_fst_zip _ _ (le_of_eq hlen), hdrop]
  have hend : (summarize (o :: rest) cpDates).map Segment.end_date =
      cpDates ++ [(rest.getLastD o).date] := by
    rw [hsumm, List.map_map]
    have : (Segment.end_date ∘ fun p : ℤ × ℤ => mkSegment (o :: rest) p.1 p.2) =
        Prod.snd := rfl
    rw [this, List.map_snd_zip _ _ (ge_of_eq hlen)]
  refine ⟨hstart, hend, ?_, ?_⟩
  · rw [hstart, hend]
    simp
  · rw [hsumm, List.map_map]
    have : ((fun s : Segment => s.end_date - s.start_date) ∘
        fun p : ℤ × ℤ => mkSegment (o :: rest) p.1 p.2) =
        fun p : ℤ × ℤ => p.2 - p.1 := rfl
    rw [this, hdrop]
    have htele := boundary_pairs_telescope (cpDates ++ [(rest.getLastD o).date]) o.date
    rw [hdrop] at htele
    rw [htele, List.getLastD_concat]

/-- Witness for C4 on a concrete 3-observation series with one change
point. -/
theorem summarize_tiles_series_witness :
    ((0 : ℤ) :: ([5] ++ [((([⟨5, 20⟩, ⟨10, 5⟩] : List Obs).getLastD ⟨0, 10⟩).date)])).Chain'
      (· < ·) ∧
    (summarize [⟨0, 10⟩, ⟨5, 20⟩, ⟨10, 5⟩] [5]).map Segment.start_date = [0, 5] ∧
    (summarize [⟨0, 10⟩, ⟨5, 20⟩, ⟨10, 5⟩] [5]).map Segment.end_date = [5, 10] ∧
    ((summarize [⟨0, 10⟩, ⟨5, 20⟩, ⟨10, 5⟩] [5]).map
      (fun s => s.end_date - s.start_date)).sum = 10 := by
  have hc : ((⟨0, 10⟩ : Obs).date ::
      ([5] ++ [((([⟨5, 20⟩, ⟨10, 5⟩] : List Obs).getLastD ⟨0, 10⟩).date)])).Chain' (· < ·) := by
    show ((0 : ℤ) :: ([5] ++ [10])).Chain' (· < ·)
    norm_num [List.chain'_cons]
  have h := summarize_tiles_series ⟨0, 10⟩ [⟨5, 20⟩, ⟨10, 5⟩] [5] hc
  exact ⟨hc, h.1, h.2.1, h.2.2.2⟩

/-! ## Theorems: volatility-clustering median split -/

/-- Median split of a duplicate-free even-length list: exactly half
the values lie strictly above the median and half at or below it. -/
theorem medianSplit_even_distinct (vols : List ℚ) (m : Nat)
    (hnd : vols.Nodup) (hlen : vols.length = 2 * m) (hm : 0 < m) :
    highVolCount vols = m ∧ lowVolCount vols = m ∧ volRatio vols = 1 := by
  have hperm : (List.insertionSort (fun a b : ℚ => a ≤ b) vols).Perm vols :=
    List.perm_insertionSort _ vols
  set s := List.insertionSort (fun a b : ℚ => a ≤ b) vols with hs_def
  have hslen : s.length = 2 * m := by rw [hperm.length_eq, hlen]
  have hsorted : s.Sorted (fun a b : ℚ => a ≤ b) := List.sorted_insertionSort _ vols
  have hsnd : s.Nodup := hperm.nodup_iff.mpr hnd
  have hpw : s.Pairwise (· < ·) := by
    have hand := List.Pairwise.and hsorted hsnd
    exact hand.imp (fun hab => lt_of_le_of_ne hab.1 hab.2)
  have hm1 : m - 1 < s.length := by omega
  have hm2 : m < s.length := by omega
  set a := s.get ⟨m - 1, hm1⟩ with ha_def
  set b := s.get ⟨m, hm2⟩ with hb_def
  have hab : a < b := by
    have h := List.pairwise_iff_get.mp hpw ⟨m - 1, hm1⟩ ⟨m, hm2⟩ (by simp; omega)
    exact h
  have hmed : medianQ vols = (a + b) / 2 := by
    show (let s' := List.insertionSort (fun a b : ℚ => a ≤ b) vols
          let n := vols.length
          if n % 2 = 1 then s'.getD (n / 2) 0
          else (s'.getD (n / 2 - 1) 0 + s'.getD (n / 2) 0) / 2) = (a + b) / 2
    simp only [← hs_def]
    rw [hlen]
    rw [if_neg (by omega)]
    have hdiv : 2 * m / 2 = m := by omega
    rw [hdiv, List.getD_eq_get s 0 hm1, List.getD_eq_get s 0 hm2]
  have hamed : a < medianQ vols := by rw [hmed]; linarith
  have hmedb : medianQ vols < b := by rw [hmed]; linarith
  have htake : ∀ x ∈ s.take m, x ≤ a := by
    intro x hx
    obtain ⟨⟨i, hi⟩, hget⟩ := List.mem_iff_get.mp hx
    have hi' : i < m := by
      have h := hi
      rw [List.length_take] at h
      omega
    have hi'' : i < s.length := by omega
    have hx_eq : x = s.get ⟨i, hi''⟩ := by
      rw [← hget]
      exact (List.get_take s hi'' hi').symm
    rcases Nat.lt_or_ge i (m - 1) with hlt | hge
    · have h := List.pairwise_iff_get.mp hpw ⟨i, hi''⟩ ⟨m - 1, hm1⟩ (by simp; omega)
      rw [hx_eq]
      exact le_of_lt h
    · have hieq : i = m - 1 := by omega
      subst hieq
      rw [hx_eq]
  have hdrop : ∀ x ∈ s.drop m, b ≤ x := by
    intro x hx
    obtain ⟨⟨j, hj⟩, hget⟩ := List.mem_iff_get.mp hx
    have hj' : j < s.length - m := by
      have h := hj
      rw [List.length_drop] at h
      exact h
    have hmj : m + j < s.length := by omega
    have hx_eq : x = s.get ⟨m + j, hmj⟩ := by
      rw [← hget]
      exact (List.get_drop s hmj).symm
    rcases Nat.eq_zero_or_pos j with rfl | hpos
    · rw [hx_eq]
      exact le_refl _
    · have h := List.pairwise_iff_get.mp hpw ⟨m, hm2⟩ ⟨m + j, hmj⟩ (by simp; omega)
      rw [hx_eq]
      exact le_of_lt h
  have hcount_high : highVolCount vols = m := by
    show vols.countP (fun v => decide (medianQ vols < v)) = m
    rw [← List.Perm.countP_eq _ hperm]
    conv_lhs => rw [← List.take_append_drop m s]
    rw [List.countP_append]
    have h1 : (s.take m).countP (fun v => decide (medianQ vols < v)) = 0 := by
      rw [List.countP_eq_zero]
      intro x hx
      simp only [decide_eq_true_eq]
      exact not_lt.mpr (le_of_lt (lt_of_le_of_lt (htake x hx) hamed))
    have h2 : (s.drop m).countP (fun v => decide (medianQ vols < v)) =
        (s.drop m).length := by
      rw [List.countP_eq_length]
      intro x hx
      simp only [decide_eq_true_eq]
      exact lt_of_lt_of_le hmedb (hdrop x hx)
    rw [h1, h2, List.length_drop, hslen]
    omega
  have hcount_low : lowVolCount vols = m := by
    show vols.countP (fun v => decide (v ≤ medianQ vols)) = m
    rw [← List.Perm.countP_eq _ hperm]
    conv_lhs => rw [← List.take_append_drop m s]
    rw [List.countP_append]
    have h1 : (s.take m).countP (fun v => decide (v ≤ medianQ vols)) =
        (s.take m).length := by
      rw [List.countP_eq_length]
      intro x hx
      simp only [decide_eq_true_eq]
      exact le_of_lt (lt_of_le_of_lt (htake x hx) hamed)
    have h2 : (s.drop m).countP (fun v => decide (v ≤ medianQ vols)) = 0 := by
      rw [List.countP_eq_zero]
      intro x hx
      simp only [decide_eq_true_eq]
      exact not_le.mpr (lt_of_lt_of_le hmedb (hdrop x hx))
    rw [h1, h2, List.length_take, hslen]
    simp
    omega
  refine ⟨hcount_high, hcount_low, ?_⟩
  show (if lowVolCount vols = 0 then 0
        else (highVolCount vols : ℚ) / (lowVolCount vols : ℚ)) = 1
  rw [hcount_high, hcount_low, if_neg (by omega)]
  exact div_self (Nat.cast_ne_zero.mpr (by omega))

/-- C7 counterexample: on the series `[1, 2, 6, 30, 270]` with rolling
window 2 the rolling volatilities are `[1/4, 1, 4]` (an odd count), the
median split classifies 1 period high and 2 low, and the ratio is not
1: the claimed count equality does not hold for every series. -/
theorem volCluster_counts_unequal_counterexample :
    (volClusterCounts 2 [1, 2, 6, 30, 270]).1 = 1 ∧
    (volClusterCounts 2 [1, 2, 6, 30, 270]).2 = 2 ∧
    volRatio (rollingVols 2 [1, 2, 6, 30, 270]) ≠ 1 := by
  have hr : rollingVols 2 [1, 2, 6, 30, 270] = [1/4, 1, 4] := by
    have h1 : returnsOf [1, 2, 6, 30, 270] = [1, 2, 4, 8] := by norm_num [returnsOf]
    rw [rollingVols, h1]
    norm_num [windowsOf, List.range_succ, listVar, listMean]
  have hmed : medianQ [1/4, 1, 4] = 1 := by
    norm_num [medianQ, List.insertionSort, List.orderedInsert]
  have hhigh : highVolCount (rollingVols 2 [1, 2, 6, 30, 270]) = 1 := by
    rw [highVolCount, hr]
    simp only [hmed]
    norm_num [List.countP_cons, List.countP_nil]
  have hlow : lowVolCount (rollingVols 2 [1, 2, 6, 30, 270]) = 2 := by
    rw [lowVolCount, hr]
    simp only [hmed]
    norm_num [List.countP_cons, List.countP_nil]
  refine ⟨hhigh, hlow, ?_⟩
  rw [volRatio, if_neg (by omega), hhigh, hlow]
  norm_num

/-- C7 as amended: whenever the rolling volatilities of a series are
pairwise distinct and even in count, the median split classifies
exactly as many periods high as low and the reported ratio is 1
(matching the recorded historical run: 901 high, 901 low, ratio 1.0). -/
theorem volCluster_median_split_even_distinct (prices : List ℚ) (w m : Nat)
    (hnd : (rollingVols w prices).Nodup)
    (hlen : (rollingVols w prices).length = 2 * m) (hm : 0 < m) :
    (volClusterCounts w prices).1 = (volClusterCounts w prices).2 ∧
    volRatio (rollingVols w prices) = 1 := by
  obtain ⟨h1, h2, h3⟩ := medianSplit_even_distinct (rollingVols w prices) m hnd hlen hm
  refine ⟨?_, h3⟩
  show highVolCount (rollingVols w prices) = lowVolCount (rollingVols w prices)
  rw [h1, h2]

/-- Witness for the amended C7 on the series `[1, 2, 6, 30, 270, 405]`
with rolling window 2, whose four rolling volatilities are distinct. -/
theorem volCluster_median_split_even_distinct_witness :
    (rollingVols 2 [1, 2, 6, 30, 270, 405]).Nodup ∧
    (rollingVols 2 [1, 2, 6, 30, 270, 405]).length = 2 * 2 ∧
    (volClusterCounts 2 [1, 2, 6, 30, 270, 405]).1 =
      (volClusterCounts 2 [1, 2, 6, 30, 270, 405]).2 ∧
    volRatio (rollingVols 2 [1, 2, 6, 30, 270, 405]) = 1 := by
  have hr : rollingVols 2 [1, 2, 6, 30, 270, 405] = [1/4, 1, 4, 225/16] := by
    have h1 : returnsOf [1, 2, 6, 30, 270, 405] = [1, 2, 4, 8, 1/2] := by
      norm_num [returnsOf]
    rw [rollingVols, h1]
    norm_num [windowsOf, List.range_succ, listVar, listMean]
  have hnd : (rollingVols 2 [1, 2, 6, 30, 270, 405]).Nodup := by
    rw [hr]; norm_num
  have hlen : (rollingVols 2 [1, 2, 6, 30, 270, 405]).length = 2 * 2 := by
    rw [hr]
    rfl
  have h := volCluster_median_split_even_distinct [1, 2, 6, 30, 270, 405] 2 2 hnd hlen
    (by omega)
  exact ⟨hnd, hlen, h.1, h.2⟩
